import Mathlib

/-!
Shallow embedding of the trading bot's trade-execution pipeline:
`src/bot.ts` (swap helper, buy path, filter window, price watcher),
`src/cache/avoid-list.cache.ts` (deny list) and
`src/helpers/connection.ts` (endpoint pool).

Public keys, signatures and the opaque inner swap instructions produced by the
Raydium SDK are modelled as opaque naturals / abstract inputs; machine numbers
(BN raw token amounts, millisecond knobs) are Nat/Int with explicit floor
division where the JavaScript code floors.
-/

namespace TradingBot

/-- Direction of a swap, mirroring the argument of type 'buy' | 'sell' of Bot.swap. -/
inductive Direction where
  | buy
  | sell
deriving DecidableEq

/-- The instructions that Bot.swap can place in a transaction.  Account addresses are
opaque naturals; the inner swap instructions produced by the Raydium SDK's
makeSwapFixedInInstruction are opaque tokens (innerSwap). -/
inductive Instr where
  | setComputeUnitPrice (microLamports : Nat)
  | setComputeUnitLimit (units : Nat)
  | createAtaIdempotent (payer ata owner mint : Nat)
  | closeAccount (account destination owner : Nat)
  | innerSwap (k : Nat)
deriving DecidableEq

/-- Whether an instruction is one of the two compute-budget instructions. -/
def Instr.isComputeBudget : Instr → Bool
  | .setComputeUnitPrice _ => true
  | .setComputeUnitLimit _ => true
  | _ => false

/-- Instruction list assembled by Bot.swap (src/bot.ts): the compute-budget unit-price and
unit-limit instructions are prepended unless the executor is the Warp or Jito variant,
a buy prepends an idempotent create-associated-token-account instruction for the output
ATA, then come the inner swap instructions, and a sell appends a close-account
instruction for the input ATA. -/
def swapInstructions (isWarp isJito : Bool) (unitPrice unitLimit : Nat)
    (walletPub ataIn ataOut mintOut : Nat) (direction : Direction) (inner : List Nat) :
    List Instr :=
  (if isWarp || isJito then []
   else [Instr.setComputeUnitPrice unitPrice, Instr.setComputeUnitLimit unitLimit])
    ++ (match direction with
        | .buy => [Instr.createAtaIdempotent walletPub ataOut walletPub mintOut]
        | .sell => [])
    ++ inner.map Instr.innerSwap
    ++ (match direction with
        | .buy => []
        | .sell => [Instr.closeAccount ataIn walletPub walletPub])

/-- Bot.swap (src/bot.ts).  The only early return is the guard
amountIn.isZero() or amountIn.raw.lte(new BN(0)): when the raw input amount is
zero or negative, nothing is handed to the transaction executor.  Otherwise the
instruction list is built and the signed transaction is handed on; the result is
the instruction list of that transaction.  computedMinAmountOut is the value
Liquidity.computeAmountOut(...).minAmountOut returned by the external Raydium SDK,
supplied here as an input; the source never tests it. -/
def swap (isWarp isJito : Bool) (unitPrice unitLimit : Nat)
    (walletPub ataIn ataOut mintOut : Nat) (amountInRaw : Int)
    (computedMinAmountOut : Nat) (direction : Direction) (inner : List Nat) :
    Option (List Instr) :=
  if amountInRaw ≤ 0 then none
  else some (swapInstructions isWarp isJito unitPrice unitLimit walletPub ataIn ataOut
    mintOut direction inner)

/-- The do/while loop of Bot.filterMatch.  t is timesChecked, m is matchCount and
shouldBuy t is the outcome of poolFilters.execute on iteration t.  The result pairs
the boolean returned by filterMatch with the number of filter-engine polls performed.
The loop guard timesChecked < filterCheckDuration / filterCheckInterval is evaluated
over JavaScript numbers; for naturals with interval > 0 it is
(t + 1) * interval < duration.  The fuel argument only serves termination: duration
units are always enough, because the guard fails once t + 1 reaches duration. -/
def filterLoop (interval duration cmc : Nat) (shouldBuy : Nat → Bool) :
    Nat → Nat → Nat → Bool × Nat
  | _, _, 0 => (false, 0)
  | t, m, fuel + 1 =>
    if shouldBuy t then
      if cmc ≤ m + 1 then (true, 1)
      else if (t + 1) * interval < duration then
        ((filterLoop interval duration cmc shouldBuy (t + 1) (m + 1) fuel).1,
         (filterLoop interval duration cmc shouldBuy (t + 1) (m + 1) fuel).2 + 1)
      else (false, 1)
    else
      if (t + 1) * interval < duration then
        ((filterLoop interval duration cmc shouldBuy (t + 1) 0 fuel).1,
         (filterLoop interval duration cmc shouldBuy (t + 1) 0 fuel).2 + 1)
      else (false, 1)

/-- Bot.filterMatch (src/bot.ts): returns true at once when filterCheckInterval or
filterCheckDuration is zero, otherwise runs the consecutive-match do/while loop.
The second component counts how many times poolFilters.execute was polled. -/
def filterMatch (interval duration cmc : Nat) (shouldBuy : Nat → Bool) : Bool × Nat :=
  if interval = 0 || duration = 0 then (true, 0)
  else filterLoop interval duration cmc shouldBuy 0 0 duration

/-- The take-profit target derived once by Bot.priceMatch, on raw quote-token amounts:
quoteAmount plus the floor of quoteAmount times the take-profit percentage over 100
(BN division truncates). -/
def takeProfitTarget (quoteAmountRaw takeProfitPct : Nat) : Int :=
  (quoteAmountRaw : Int) + ((quoteAmountRaw * takeProfitPct / 100 : Nat) : Int)

/-- The stop-loss target derived once by Bot.priceMatch: quoteAmount minus the floor of
quoteAmount times the stop-loss percentage over 100. -/
def stopLossTarget (quoteAmountRaw stopLossPct : Nat) : Int :=
  (quoteAmountRaw : Int) - ((quoteAmountRaw * stopLossPct / 100 : Nat) : Int)

/-- One Bot.priceMatch iteration's exit test.  fetch t is the computed amountOut of
iteration t, or none when fetching pool info / computing the quote threw (the catch
branch logs and the loop continues, so an exception never stops the loop).  The loop
breaks exactly when amountOut.lt(stopLoss) or amountOut.gt(takeProfit), both strict. -/
def priceStop (sl tp : Int) (fetch : Nat → Option Nat) (t : Nat) : Bool :=
  match fetch t with
  | none => false
  | some out => decide ((out : Int) < sl) || decide (tp < (out : Int))

/-- The do/while loop of Bot.priceMatch, counting iterations performed (each iteration
fetches pool info once).  t is timesChecked; the guard after the finally-increment is
timesChecked < timesToCheck.  Fuel only serves termination; ttc + 1 always suffices. -/
def priceLoop (ttc : Nat) (sl tp : Int) (fetch : Nat → Option Nat) : Nat → Nat → Nat
  | _, 0 => 0
  | t, fuel + 1 =>
    if priceStop sl tp fetch t then 1
    else if t + 1 < ttc then 1 + priceLoop ttc sl tp fetch (t + 1) fuel
    else 1

/-- Bot.priceMatch (src/bot.ts), instrumented with the number of loop iterations
(equivalently pool-info fetches; the source returns void).  Returns 0 iterations
when priceCheckDuration or priceCheckInterval is zero; otherwise
timesToCheck = Math.floor(priceCheckDuration / priceCheckInterval) and the take-profit
and stop-loss targets are derived once before the do/while loop runs. -/
def priceMatchIters (interval duration takeProfitPct stopLossPct quoteAmountRaw : Nat)
    (fetch : Nat → Option Nat) : Nat :=
  if duration = 0 || interval = 0 then 0
  else priceLoop (duration / interval) (stopLossTarget quoteAmountRaw stopLossPct)
    (takeProfitTarget quoteAmountRaw takeProfitPct) fetch 0 (duration / interval + 1)

/-- Result reported by TransactionExecutor.executeAndConfirm (signature and error
detail omitted; only the confirmed flag drives control flow in the retry loops). -/
structure TxResult where
  confirmed : Bool
deriving DecidableEq

/-- The slice of BotConfig that decides the buy path's control flow. -/
structure BuyConfig where
  useSnipeList : Bool
  useAvoidList : Bool
  oneTokenAtATime : Bool
  maxBuyRetries : Nat
deriving DecidableEq

/-- Outcome of one call to the swap helper as seen by the retry loops of Bot.buy and
Bot.sell: the awaited promise can reject (threw — the catch branch logs the send error
and the loop moves on to the next attempt), the helper can return undefined (empty —
the amountIn guard), or it yields the executor's result. -/
inductive SwapAttempt where
  | threw
  | empty
  | result (r : TxResult)
deriving DecidableEq

/-- Environment of one Bot.buy invocation.  The two reads of sellExecutionCount are kept
separate because await listeners.stop() suspends between them; mutexLockedAtCheck and
sellCountAtLockCheck are the values observed at the skip check.  filterResult is the
outcome of the filterMatch window and swapResults i the outcome of the i-th swap call,
including the thrown case. -/
structure BuyEnv where
  inSnipeList : Bool
  inAvoidList : Bool
  sellCountAtStopCheck : Nat
  mutexLockedAtCheck : Bool
  sellCountAtLockCheck : Nat
  hasMarketId : Bool
  filterResult : Bool
  swapResults : Nat → SwapAttempt

/-- Observable effects of one Bot.buy invocation: whether this call acquired the trade
mutex, how many swap submissions it made, whether it stopped the listeners, and whether
its cleanup restarted them. -/
structure BuyOutcome where
  mutexAcquired : Bool
  submissions : Nat
  listenersStopped : Bool
  listenersRestarted : Bool
deriving DecidableEq

/-- Whether an attempt's outcome breaks the retry loop of Bot.buy: an absent result
breaks, a confirmed result breaks; a thrown attempt (caught and logged) and a present
unconfirmed result both fall through to the next iteration. -/
def stopsRetry : SwapAttempt → Bool
  | .threw => false
  | .empty => true
  | .result r => r.confirmed

/-- The retry loop for i in 0 ..< maxBuyRetries of Bot.buy: each iteration calls the
swap helper once; a thrown attempt is caught, logged and the loop continues; an absent
result breaks; a confirmed result breaks; an unconfirmed result continues.  Returns
the number of swap calls made starting at attempt i with the given remaining fuel
(fuel = maxBuyRetries - i). -/
def buyRetrySubmissions (results : Nat → SwapAttempt) : Nat → Nat → Nat
  | _, 0 => 0
  | i, fuel + 1 =>
    match results i with
    | .threw => 1 + buyRetrySubmissions results (i + 1) fuel
    | .empty => 1
    | .result r => if r.confirmed then 1 else 1 + buyRetrySubmissions results (i + 1) fuel

/-- Bot.buy (src/bot.ts) as a function of its configuration and environment.  Control
flow mirrors the source: snipe-list skip, avoid-list skip, (autoBuyDelay sleep has no
modelled effect), then under oneTokenAtATime the listeners are stopped when
sellExecutionCount > 0, the early return fires when the mutex is locked or
sellExecutionCount > 0 at the skip check (without acquiring the mutex and without
restarting listeners), otherwise the mutex is acquired; a missing market id (CPMM)
skips with cleanup, a failed filter window skips with cleanup, and otherwise the retry
loop runs; the finally cleanup restarts listeners only if this call stopped them. -/
def buy (cfg : BuyConfig) (env : BuyEnv) : BuyOutcome :=
  if cfg.useSnipeList && !env.inSnipeList then ⟨false, 0, false, false⟩
  else if cfg.useAvoidList && env.inAvoidList then ⟨false, 0, false, false⟩
  else
    let stopped := cfg.oneTokenAtATime && decide (0 < env.sellCountAtStopCheck)
    if cfg.oneTokenAtATime && (env.mutexLockedAtCheck || decide (0 < env.sellCountAtLockCheck)) then
      ⟨false, 0, stopped, false⟩
    else if env.hasMarketId then
      if !cfg.useSnipeList && !env.filterResult then
        ⟨cfg.oneTokenAtATime, 0, stopped, cfg.oneTokenAtATime && stopped⟩
      else
        ⟨cfg.oneTokenAtATime, buyRetrySubmissions env.swapResults 0 cfg.maxBuyRetries, stopped,
          cfg.oneTokenAtATime && stopped⟩
    else
      ⟨cfg.oneTokenAtATime, 0, stopped, cfg.oneTokenAtATime && stopped⟩

/-- The do/while loop inside CustomConnection.getRandomConnection
(src/helpers/connection.ts): draw candidates rand k, rand (k+1), ... until one differs
from the last-used index (index === this.lastIndex, with lastIndex possibly null).
Fuel bounds the unbounded retry; none models the loop spinning forever. -/
def pickDifferentIndex (last : Option Nat) (rand : Nat → Nat) : Nat → Nat → Option Nat
  | _, 0 => none
  | k, fuel + 1 =>
    if some (rand k) = last then pickDifferentIndex last rand (k + 1) fuel
    else some (rand k)

/-- Result of a CustomConnection.refreshConnection call: the hard-coded default
connection, a picked endpoint index together with the updated lastIndex, or a spin of
the candidate loop past the modelled fuel. -/
inductive RefreshOutcome where
  | defaultConn
  | picked (index : Nat) (newLast : Option Nat)
  | spin
deriving DecidableEq

/-- CustomConnection.getRandomConnection: with a single configured endpoint the sole
index 0 is reused and recorded; otherwise the candidate loop picks an index different
from the last-used one and records it.  rand k is Math.floor(Math.random() * N) of the
k-th draw. -/
def getRandomConnection (n : Nat) (last : Option Nat) (rand : Nat → Nat) (fuel : Nat) :
    RefreshOutcome :=
  if n = 1 then .picked 0 (some 0)
  else
    match pickDifferentIndex last rand 0 fuel with
    | some i => .picked i (some i)
    | none => .spin

/-- CustomConnection.refreshConnection: with useDefault it reverts to the hard-coded
default Solana connection (lastIndex untouched), otherwise it delegates to
getRandomConnection. -/
def refreshConnection (useDefault : Bool) (n : Nat) (last : Option Nat) (rand : Nat → Nat)
    (fuel : Nat) : RefreshOutcome :=
  if useDefault then .defaultConn
  else getRandomConnection n last rand fuel

/-- The characters stripped by JavaScript's String.trim (ECMA-262 WhiteSpace plus
LineTerminator): tab, line feed, vertical tab, form feed, carriage return, space,
no-break space, zero-width no-break space, the line and paragraph separators, and the
Unicode space-separator category. -/
def isJsSpace (c : Char) : Bool :=
  c = ' ' || c = '\t' || c = '\n' || c = '\r' ||
  c = '\u000B' || c = '\u000C' || c = '\u00A0' || c = '\uFEFF' ||
  c = '\u1680' || ('\u2000' ≤ c && c ≤ '\u200A') ||
  c = '\u2028' || c = '\u2029' || c = '\u202F' || c = '\u205F' || c = '\u3000'

/-- String.trim on a character list: strip leading and trailing whitespace. -/
def trimChars (l : List Char) : List Char :=
  ((l.dropWhile isJsSpace).reverse.dropWhile isJsSpace).reverse

/-- JavaScript String.split(sep) on a character list: always at least one segment,
empty segments preserved. -/
def splitOnChar (sep : Char) : List Char → List (List Char)
  | [] => [[]]
  | c :: rest =>
    let r := splitOnChar sep rest
    if c = sep then [] :: r
    else
      match r with
      | [] => [[c]]
      | h :: t => (c :: h) :: t

/-- JavaScript's Array join with a separator, on segments of characters (the inverse of
splitOnChar). -/
def joinWithChar (sep : Char) : List (List Char) → List Char
  | [] => []
  | [l] => l
  | l :: rest => l ++ sep :: joinWithChar sep rest

/-- JSON.stringify's escaping of one character inside a string literal.  Quote,
backslash, line feed, carriage return and tab are escaped; every other character is
emitted verbatim.  (Real JSON.stringify writes the remaining control characters as
backslash-u escapes instead; either spelling stays inside one comma-free region of one
line and inverts under the paired decoder, so the round-trip statements below are
unaffected by this choice.) -/
def jsonEscapeChar (c : Char) : List Char :=
  if c = '\"' then ['\\', '\"']
  else if c = '\\' then ['\\', '\\']
  else if c = '\n' then ['\\', 'n']
  else if c = '\r' then ['\\', 'r']
  else if c = '\t' then ['\\', 't']
  else [c]

/-- JSON.stringify of a string: a double-quoted literal with escaped body. -/
def jsonEncodeChars (l : List Char) : List Char :=
  '\"' :: ((l.map jsonEscapeChar).flatten ++ ['\"'])

/-- Inverse of jsonEscapeChar on the character after a backslash. -/
def jsonUnescapeChar (c : Char) : Option Char :=
  if c = '\"' then some '\"'
  else if c = '\\' then some '\\'
  else if c = 'n' then some '\n'
  else if c = 'r' then some '\r'
  else if c = 't' then some '\t'
  else none

/-- JSON.parse of the body of a string literal: consume characters up to a closing
quote that must end the input; a lone backslash, an unescaped interior quote, a bad
escape or a missing closing quote fail. -/
def jsonDecodeBody : List Char → Option (List Char)
  | [] => none
  | [c] => if c = '\"' then some [] else none
  | c :: e :: rest =>
    if c = '\\' then
      match jsonUnescapeChar e, jsonDecodeBody rest with
      | some d, some tail => some (d :: tail)
      | _, _ => none
    else if c = '\"' then none
    else
      match jsonDecodeBody (e :: rest) with
      | some tail => some (c :: tail)
      | none => none

/-- JSON.parse restricted to string literals (the only values the deny-list writer
produces); anything else fails, which the loader's catch turns into the raw fallback. -/
def jsonDecodeChars (l : List Char) : Option (List Char) :=
  match l with
  | [] => none
  | c :: rest => if c = '\"' then jsonDecodeBody rest else none

/-- One deny-list entry of AvoidListCache (src/cache/avoid-list.cache.ts): an address
with an optional note. -/
structure AvoidListEntry where
  address : List Char
  note : Option (List Char)
deriving DecidableEq

/-- In-memory list plus the on-disk file contents owned by AvoidListCache. -/
structure AvoidState where
  avoidList : List AvoidListEntry
  file : List Char
deriving DecidableEq

/-- AvoidListCache.isInList: membership by address over the in-memory list. -/
def isInList (avoidList : List AvoidListEntry) (mint : List Char) : Bool :=
  avoidList.any (fun e => e.address == mint)

/-- The line AvoidListCache.add appends (before the trailing newline): the address, or
the address, a comma and the JSON-encoded note. -/
def addLine (address : List Char) (note : Option (List Char)) : List Char :=
  match note with
  | some n => address ++ ',' :: jsonEncodeChars n
  | none => address

/-- AvoidListCache.add: a duplicate address is a no-op (warn log only); otherwise the
entry is pushed onto the in-memory list and its line plus a newline is appended to the
file. -/
def add (st : AvoidState) (address : List Char) (note : Option (List Char)) : AvoidState :=
  if isInList st.avoidList address then st
  else ⟨st.avoidList ++ [⟨address, note⟩], st.file ++ addLine address note ++ ['\n']⟩

/-- The per-line parser of AvoidListCache.loadAvoidList: split the (already trimmed)
line on commas; no comma means a bare address; otherwise rejoin the remainder, trim,
try JSON.parse and fall back to the raw text, and trim the address part. -/
def parseLine (line : List Char) : AvoidListEntry :=
  match splitOnChar ',' line with
  | [] => ⟨line, none⟩
  | [address] => ⟨address, none⟩
  | address :: rest =>
    let raw := trimChars (joinWithChar ',' rest)
    let note :=
      match jsonDecodeChars raw with
      | some n => n
      | none => raw
    ⟨trimChars address, some note⟩

/-- AvoidListCache.loadAvoidList: split the file on newlines, trim every line, drop the
empty ones and parse the rest. -/
def loadAvoidList (file : List Char) : List AvoidListEntry :=
  (((splitOnChar '\n' file).map trimChars).filter (fun l => !l.isEmpty)).map parseLine

/-- An address that survives the deny-list file format: nonempty, without commas, and
without any whitespace character (true of base58 addresses). -/
def goodAddress (a : List Char) : Prop :=
  a ≠ [] ∧ ',' ∉ a ∧ ∀ c ∈ a, isJsSpace c = false

/-- A well-formed stored line: nonempty, trim-invariant and newline-free. -/
def goodLine (l : List Char) : Prop :=
  l ≠ [] ∧ trimChars l = l ∧ '\n' ∉ l

/-- A well-formed cache state: the file is a sequence of newline-terminated well-formed
lines and the in-memory list is their parse. -/
def wfState (st : AvoidState) : Prop :=
  ∃ lines : List (List Char),
    st.file = (lines.map (fun l => l ++ ['\n'])).flatten ∧
    st.avoidList = lines.map parseLine ∧
    ∀ l ∈ lines, goodLine l

/-! ### Theorems about the swap helper (claims C1, C5, C6) -/

/-- Counterexample to C1.  The claim says a computed minimum output of zero makes the
swap abort with no transaction handed to the executor; but at a concrete input with
computedMinAmountOut = 0 and a positive input amount, Bot.swap builds the transaction
and hands it on (the source only guards on the input amount). -/
theorem claim_C1_counterexample :
    (swap false false 5 6 1 2 3 4 1 0 Direction.buy [9]).isSome = true := by
  decide

/-- C1 (amended): the swap helper aborts, handing no transaction to the transaction
executor, exactly when the raw input amount is zero or negative; the computed minimum
output (the AMM constant-product result under the slippage tolerance) is never
examined, so a computed minimum output of zero does not abort the swap. -/
theorem claim_C1_amended (w j : Bool) (up ul wp ai ao mo : Nat) (amt : Int) (minOut : Nat)
    (d : Direction) (inner : List Nat) :
    (amt ≤ 0 → swap w j up ul wp ai ao mo amt minOut d inner = none) ∧
    (0 < amt → swap w j up ul wp ai ao mo amt minOut d inner =
      some (swapInstructions w j up ul wp ai ao mo d inner)) := by
  constructor
  · intro h
    simp [swap, h]
  · intro h
    unfold swap
    rw [if_neg (by omega)]

/-- Witness for the amended C1 at concrete inputs: a zero input amount aborts, a
positive input amount with computed minimum output 0 hands the transaction on. -/
theorem claim_C1_witness :
    swap false false 5 6 1 2 3 4 0 7 Direction.sell [] = none ∧
    swap false false 5 6 1 2 3 4 2 0 Direction.buy [9] =
      some (swapInstructions false false 5 6 1 2 3 4 Direction.buy [9]) :=
  ⟨(claim_C1_amended false false 5 6 1 2 3 4 0 7 Direction.sell []).1 (by decide),
   (claim_C1_amended false false 5 6 1 2 3 4 2 0 Direction.buy [9]).2 (by decide)⟩

/-- C5: every transaction built by the swap helper contains no compute-budget
instruction when the executor is the Warp or the Bundle (Jito) variant, and starts
with the compute-budget unit-price and unit-limit instructions when the executor is
the Default variant (isWarp and isJito both false). -/
theorem claim_C5 (w j : Bool) (up ul wp ai ao mo : Nat) (amt : Int) (minOut : Nat)
    (d : Direction) (inner : List Nat) (instrs : List Instr)
    (h : swap w j up ul wp ai ao mo amt minOut d inner = some instrs) :
    ((w = true ∨ j = true) → ∀ ins ∈ instrs, ins.isComputeBudget = false) ∧
    (w = false → j = false → ∃ rest, instrs =
      Instr.setComputeUnitPrice up :: Instr.setComputeUnitLimit ul :: rest) := by
  have hinstrs : instrs = swapInstructions w j up ul wp ai ao mo d inner := by
    unfold swap at h
    by_cases hamt : amt ≤ 0
    · rw [if_pos hamt] at h; exact absurd h (by simp)
    · rw [if_neg hamt] at h; exact (Option.some.inj h).symm
  subst hinstrs
  constructor
  · intro hwj ins hins
    have hcond : (w || j) = true := by
      rcases hwj with h1 | h1 <;> simp [h1]
    unfold swapInstructions at hins
    rw [hcond] at hins
    simp only [if_true, List.nil_append, List.mem_append] at hins
    rcases hins with (hins | hins) | hins
    · cases d <;> simp at hins <;> simp [hins, Instr.isComputeBudget]
    · simp only [List.mem_map] at hins
      obtain ⟨k, -, hk⟩ := hins
      simp [← hk, Instr.isComputeBudget]
    · cases d <;> simp at hins <;> simp [hins, Instr.isComputeBudget]
  · intro hw hj
    subst hw; subst hj
    unfold swapInstructions
    simp

/-- Witness for C5: with the Jito executor the concrete built transaction has no
compute-budget instruction; with the Default executor it starts with the unit-price
and unit-limit instructions. -/
theorem claim_C5_witness :
    (∀ ins ∈ swapInstructions true false 5 6 1 2 3 4 Direction.buy [9],
      ins.isComputeBudget = false) ∧
    (∃ rest, swapInstructions false false 5 6 1 2 3 4 Direction.buy [9] =
      Instr.setComputeUnitPrice 5 :: Instr.setComputeUnitLimit 6 :: rest) :=
  ⟨(claim_C5 true false 5 6 1 2 3 4 2 0 Direction.buy [9] _ rfl).1 (Or.inl rfl),
   (claim_C5 false false 5 6 1 2 3 4 2 0 Direction.buy [9] _ rfl).2 rfl rfl⟩

/-- C6: in every transaction built by the swap helper in the buy direction, the
idempotent create-associated-token-account instruction for the output ATA stands
immediately before the inner swap instructions (whatever precedes it is only
compute-budget instructions); in the sell direction the close-account instruction for
the input ATA is the final instruction of the transaction. -/
theorem claim_C6 :
    (∀ (w j : Bool) (up ul wp ai ao mo : Nat) (amt : Int) (minOut : Nat)
      (inner : List Nat) (instrs : List Instr),
      swap w j up ul wp ai ao mo amt minOut Direction.buy inner = some instrs →
      ∃ pre, instrs = pre ++ Instr.createAtaIdempotent wp ao wp mo ::
        inner.map Instr.innerSwap ∧ ∀ x ∈ pre, x.isComputeBudget = true) ∧
    (∀ (w j : Bool) (up ul wp ai ao mo : Nat) (amt : Int) (minOut : Nat)
      (inner : List Nat) (instrs : List Instr),
      swap w j up ul wp ai ao mo amt minOut Direction.sell inner = some instrs →
      instrs.getLast? = some (Instr.closeAccount ai wp wp)) := by
  constructor
  · intro w j up ul wp ai ao mo amt minOut inner instrs h
    have hinstrs : instrs = swapInstructions w j up ul wp ai ao mo Direction.buy inner := by
      unfold swap at h
      by_cases hamt : amt ≤ 0
      · rw [if_pos hamt] at h; exact absurd h (by simp)
      · rw [if_neg hamt] at h; exact (Option.some.inj h).symm
    subst hinstrs
    refine ⟨if w || j then [] else
      [Instr.setComputeUnitPrice up, Instr.setComputeUnitLimit ul], ?_, ?_⟩
    · unfold swapInstructions
      cases hwj : w || j <;> simp
    · intro x hx
      by_cases hwj : (w || j) = true
      · rw [if_pos hwj] at hx; simp at hx
      · rw [if_neg hwj] at hx
        simp only [List.mem_cons, List.not_mem_nil, or_false] at hx
        rcases hx with hx | hx <;> simp [hx, Instr.isComputeBudget]
  · intro w j up ul wp ai ao mo amt minOut inner instrs h
    have hinstrs : instrs = swapInstructions w j up ul wp ai ao mo Direction.sell inner := by
      unfold swap at h
      by_cases hamt : amt ≤ 0
      · rw [if_pos hamt] at h; exact absurd h (by simp)
      · rw [if_neg hamt] at h; exact (Option.some.inj h).symm
    subst hinstrs
    unfold swapInstructions
    rw [show ∀ a b c : List Instr, ∀ x : Instr, a ++ b ++ c ++ [x] = (a ++ b ++ c) ++ [x]
      from fun a b c x => by simp [List.append_assoc]]
    exact List.getLast?_concat _

/-- Witness for C6 at concrete inputs: the buy-direction decomposition and the
sell-direction final close-account instruction, both read off a concrete built
transaction. -/
theorem claim_C6_witness :
    (∃ pre, swapInstructions false false 5 6 1 2 3 4 Direction.buy [9] =
      pre ++ Instr.createAtaIdempotent 1 3 1 4 :: [9].map Instr.innerSwap ∧
      ∀ x ∈ pre, x.isComputeBudget = true) ∧
    (swapInstructions false false 5 6 1 2 3 4 Direction.sell [9]).getLast? =
      some (Instr.closeAccount 2 1 1) :=
  ⟨claim_C6.1 false false 5 6 1 2 3 4 2 0 [9] _ rfl,
   claim_C6.2 false false 5 6 1 2 3 4 2 0 [9] _ rfl⟩

/-! ### Theorems about the consecutive-match filter window (claim C3) -/

/-- The filter loop polls at most the ceiling of duration / interval times. -/
theorem filterLoop_polls_le (interval duration cmc : Nat) (f : Nat → Bool)
    (hi : 0 < interval) :
    ∀ fuel t m, t < (duration + interval - 1) / interval →
      (filterLoop interval duration cmc f t m fuel).2 ≤
        (duration + interval - 1) / interval - t := by
  intro fuel
  induction fuel with
  | zero => intro t m ht; simp [filterLoop]
  | succ fuel ih =>
    intro t m ht
    have hstep : ∀ u : Nat, (u + 1) * interval < duration →
        u + 1 < (duration + interval - 1) / interval := by
      intro u h
      have hmul : (u + 2) * interval = (u + 1) * interval + interval := by ring
      have h2 : (u + 2) * interval ≤ duration + interval - 1 := by omega
      have := (Nat.le_div_iff_mul_le hi).2 h2
      omega
    unfold filterLoop
    by_cases hb : f t
    · rw [if_pos hb]
      by_cases hcmc : cmc ≤ m + 1
      · rw [if_pos hcmc]; simp; omega
      · rw [if_neg hcmc]
        by_cases hcont : (t + 1) * interval < duration
        · rw [if_pos hcont]
          have := ih (t + 1) (m + 1) (hstep t hcont)
          simp only
          omega
        · rw [if_neg hcont]; simp; omega
    · rw [if_neg hb]
      by_cases hcont : (t + 1) * interval < duration
      · rw [if_pos hcont]
        have := ih (t + 1) 0 (hstep t hcont)
        simp only
        omega
      · rw [if_neg hcont]; simp; omega

/-- With an always-failing filter engine the loop exhausts the full ceiling window and
returns false. -/
theorem filterLoop_false_exhaust (interval duration cmc : Nat) (f : Nat → Bool)
    (hi : 0 < interval) (hf : ∀ t, f t = false) :
    ∀ fuel t m, (duration + interval - 1) / interval - t ≤ fuel →
      t < (duration + interval - 1) / interval →
      filterLoop interval duration cmc f t m fuel =
        (false, (duration + interval - 1) / interval - t) := by
  intro fuel
  induction fuel with
  | zero => intro t m hle ht; omega
  | succ fuel ih =>
    intro t m hle ht
    unfold filterLoop
    rw [hf t]
    simp only [Bool.false_eq_true, if_false]
    by_cases hcont : (t + 1) * interval < duration
    · have hlt : t + 1 < (duration + interval - 1) / interval := by
        have hmul : (t + 2) * interval = (t + 1) * interval + interval := by ring
        have h2 : (t + 2) * interval ≤ duration + interval - 1 := by omega
        have := (Nat.le_div_iff_mul_le hi).2 h2
        omega
      rw [if_pos hcont, ih (t + 1) 0 (by omega) hlt]
      simp
      omega
    · rw [if_neg hcont]
      have hup : (duration + interval - 1) / interval < t + 2 := by
        rw [Nat.div_lt_iff_lt_mul hi]
        have hmul : (t + 2) * interval = (t + 1) * interval + interval := by ring
        omega
      have : (duration + interval - 1) / interval - t = 1 := by omega
      rw [this]

/-- A run of k consecutive successes starting at iteration t, with the window still
open through iteration t + k - 1 and the counter k short of cmc, makes the loop
return true after exactly k further polls. -/
theorem filterLoop_consecutive (interval duration cmc : Nat) (f : Nat → Bool) :
    ∀ fuel t m k, 1 ≤ k → m + k = cmc → (∀ j, t ≤ j → j < t + k → f j = true) →
      (t + k - 1) * interval < duration → k ≤ fuel →
      filterLoop interval duration cmc f t m fuel = (true, k) := by
  intro fuel
  induction fuel with
  | zero => intro t m k h1 _ _ _ h5; omega
  | succ fuel ih =>
    intro t m k h1 h2 h3 h4 h5
    have hft : f t = true := h3 t le_rfl (by omega)
    unfold filterLoop
    rw [hft]
    simp only [if_true]
    by_cases hk : k = 1
    · subst hk
      rw [if_pos (by omega : cmc ≤ m + 1)]
    · rw [if_neg (by omega : ¬ cmc ≤ m + 1)]
      have hcont : (t + 1) * interval < duration := by
        have hle : (t + 1) * interval ≤ (t + k - 1) * interval :=
          Nat.mul_le_mul_right _ (by omega)
        omega
      rw [if_pos hcont]
      have hrec := ih (t + 1) (m + 1) (k - 1) (by omega) (by omega)
        (fun j hj1 hj2 => h3 j (by omega) (by omega))
        (by
          have heq : t + 1 + (k - 1) - 1 = t + k - 1 := by omega
          rw [heq]; exact h4)
        (by omega)
      rw [hrec]
      simp
      omega

/-- Counterexample to C3.  The claim bounds the number of filter-engine polls by
filterCheckDuration / filterCheckInterval; with duration 1 and interval 2 the do/while
loop still polls once, which exceeds that bound both under integer division
(1 / 2 = 0) and under exact division (1 poll times interval 2 exceeds duration 1). -/
theorem claim_C3_counterexample :
    ¬ ((filterMatch 2 1 5 (fun _ => false)).2 ≤ 1 / 2) ∧
    1 < (filterMatch 2 1 5 (fun _ => false)).2 * 2 := by
  decide

/-- C3 (amended): if filterCheckInterval or filterCheckDuration is zero the loop
returns true without evaluating any filter; otherwise it polls the engine at most
the ceiling of filterCheckDuration / filterCheckInterval times (so at least one poll
happens even when duration < interval); a run of consecutiveMatchCount consecutive
successes inside the window returns true at exactly that poll (consecutiveMatchCount
one returns true on the first success); an engine that never succeeds exhausts the
ceiling bound and returns false; and a failure resets the consecutive counter, as the
final concrete window (success, failure, success over three polls with
consecutiveMatchCount two) shows by returning false where a cumulative count would
have returned true. -/
theorem claim_C3_amended :
    (∀ duration cmc f, filterMatch 0 duration cmc f = (true, 0)) ∧
    (∀ interval cmc f, filterMatch interval 0 cmc f = (true, 0)) ∧
    (∀ interval duration cmc f, 0 < interval → 0 < duration →
      (filterMatch interval duration cmc f).2 ≤ (duration + interval - 1) / interval) ∧
    (∀ interval duration cmc f, 0 < interval → 0 < duration → 1 ≤ cmc →
      (∀ j, j < cmc → f j = true) → (cmc - 1) * interval < duration →
      filterMatch interval duration cmc f = (true, cmc)) ∧
    (∀ interval duration f, 0 < interval → 0 < duration → f 0 = true →
      filterMatch interval duration 1 f = (true, 1)) ∧
    (∀ interval duration cmc f, 0 < interval → 0 < duration → (∀ t, f t = false) →
      filterMatch interval duration cmc f =
        (false, (duration + interval - 1) / interval)) ∧
    (filterMatch 1 3 2 (fun t => decide (t ≠ 1)) = (false, 3)) := by
  have hrun : ∀ interval duration cmc (f : Nat → Bool), 0 < interval → 0 < duration →
      1 ≤ cmc → (∀ j, j < cmc → f j = true) → (cmc - 1) * interval < duration →
      filterMatch interval duration cmc f = (true, cmc) := by
    intro interval duration cmc f hi hd hc hf hw
    unfold filterMatch
    rw [if_neg (by simp; omega)]
    have hfuel : cmc ≤ duration := by
      have := Nat.le_mul_of_pos_right (cmc - 1) hi
      omega
    exact filterLoop_consecutive interval duration cmc f duration 0 0 cmc hc
      (by omega) (fun j hj1 hj2 => hf j (by omega)) (by simpa using hw) hfuel
  refine ⟨?_, ?_, ?_, hrun, ?_, ?_, by decide⟩
  · intro duration cmc f; simp [filterMatch]
  · intro interval cmc f; simp [filterMatch]
  · intro interval duration cmc f hi hd
    unfold filterMatch
    rw [if_neg (by simp; omega)]
    have hC : 1 ≤ (duration + interval - 1) / interval :=
      (Nat.le_div_iff_mul_le hi).2 (by omega)
    have := filterLoop_polls_le interval duration cmc f hi duration 0 0 (by omega)
    omega
  · intro interval duration f hi hd hf
    exact hrun interval duration 1 f hi hd le_rfl
      (fun j hj => by interval_cases j; exact hf) (by simpa using hd)
  · intro interval duration cmc f hi hd hf
    unfold filterMatch
    rw [if_neg (by simp; omega)]
    have hC : 1 ≤ (duration + interval - 1) / interval :=
      (Nat.le_div_iff_mul_le hi).2 (by omega)
    have hCd : (duration + interval - 1) / interval ≤ duration := by
      have h1 : duration ≤ duration * interval := Nat.le_mul_of_pos_right duration hi
      have h2 : (duration + interval - 1) / interval < duration + 1 := by
        rw [Nat.div_lt_iff_lt_mul hi]
        have hmul : (duration + 1) * interval = duration * interval + interval := by ring
        omega
      omega
    have := filterLoop_false_exhaust interval duration cmc f hi hf duration 0 0
      (by omega) (by omega)
    simpa using this

/-- Witness for the amended C3 at concrete inputs: the zero-knob bypass, the ceiling
poll bound, the consecutive-run success, the first-poll success at count one, and the
always-failing exhaustion. -/
theorem claim_C3_witness :
    filterMatch 0 5 2 (fun _ => true) = (true, 0) ∧
    filterMatch 7 0 2 (fun _ => true) = (true, 0) ∧
    (filterMatch 2 5 9 (fun _ => true)).2 ≤ (5 + 2 - 1) / 2 ∧
    filterMatch 1 3 2 (fun _ => true) = (true, 2) ∧
    filterMatch 4 9 1 (fun _ => true) = (true, 1) ∧
    filterMatch 2 5 3 (fun _ => false) = (false, (5 + 2 - 1) / 2) :=
  ⟨claim_C3_amended.1 5 2 (fun _ => true),
   claim_C3_amended.2.1 7 2 (fun _ => true),
   claim_C3_amended.2.2.1 2 5 9 (fun _ => true) (by decide) (by decide),
   claim_C3_amended.2.2.2.1 1 3 2 (fun _ => true) (by decide) (by decide) (by decide)
     (fun j _ => rfl) (by decide),
   claim_C3_amended.2.2.2.2.1 4 9 (fun _ => true) (by decide) (by decide) rfl,
   claim_C3_amended.2.2.2.2.2.1 2 5 3 (fun _ => false) (by decide) (by decide)
     (fun t => rfl)⟩

/-! ### Theorems about the price watcher (claims C4, C10) -/

/-- Full characterisation of the price-watch do/while loop: starting at iteration t
inside the window it runs at least one and at most max 1 ttc - t iterations, every
non-final iteration saw no stop condition, and it ends either by exhausting the window
or with the stop condition true at its final iteration. -/
theorem priceLoop_spec (ttc : Nat) (sl tp : Int) (fetch : Nat → Option Nat) :
    ∀ fuel t, t < max 1 ttc → max 1 ttc - t ≤ fuel →
      1 ≤ priceLoop ttc sl tp fetch t fuel ∧
      priceLoop ttc sl tp fetch t fuel ≤ max 1 ttc - t ∧
      (∀ s, s + 1 < priceLoop ttc sl tp fetch t fuel →
        priceStop sl tp fetch (t + s) = false) ∧
      (priceLoop ttc sl tp fetch t fuel = max 1 ttc - t ∨
        priceStop sl tp fetch (t + priceLoop ttc sl tp fetch t fuel - 1) = true) := by
  intro fuel
  induction fuel with
  | zero => intro t ht hle; omega
  | succ fuel ih =>
    intro t ht hle
    unfold priceLoop
    by_cases hstop : priceStop sl tp fetch t
    · rw [if_pos hstop]
      refine ⟨le_rfl, by omega, ?_, Or.inr ?_⟩
      · intro s hs; omega
      · simpa using hstop
    · rw [if_neg hstop]
      by_cases hcont : t + 1 < ttc
      · rw [if_pos hcont]
        have ht1 : t + 1 < max 1 ttc := by omega
        obtain ⟨ih1, ih2, ih3, ih4⟩ := ih (t + 1) ht1 (by omega)
        refine ⟨by omega, by omega, ?_, ?_⟩
        · intro s hs
          match s with
          | 0 => simpa using hstop
          | s + 1 =>
            have := ih3 s (by omega)
            have heq : t + 1 + s = t + (s + 1) := by omega
            rwa [heq] at this
        · rcases ih4 with h | h
          · left; omega
          · right
            have heq : t + 1 + priceLoop ttc sl tp fetch (t + 1) fuel - 1 =
                t + (1 + priceLoop ttc sl tp fetch (t + 1) fuel) - 1 := by omega
            rwa [heq] at h
      · rw [if_neg hcont]
        refine ⟨le_rfl, by omega, ?_, Or.inl (by omega)⟩
        intro s hs; omega

/-- C4: the price watcher returns immediately, fetching no pool info, when
priceCheckDuration or priceCheckInterval is zero; otherwise it derives the take-profit
and stop-loss targets once, fetches pool info on every iteration, and the do/while
loop ends exactly when the computed output falls strictly below the stop-loss target
or rises strictly above the take-profit target (an iteration whose fetch threw never
stops the loop) or when the iteration window of Math.floor(duration / interval) passes
is exhausted (always at least one pass, the do/while lower bound). -/
theorem claim_C4 :
    (∀ interval duration tp sl qa fetch, duration = 0 ∨ interval = 0 →
      priceMatchIters interval duration tp sl qa fetch = 0) ∧
    (∀ interval duration tp sl qa fetch, 0 < duration → 0 < interval →
      1 ≤ priceMatchIters interval duration tp sl qa fetch ∧
      priceMatchIters interval duration tp sl qa fetch ≤ max 1 (duration / interval) ∧
      (∀ s, s + 1 < priceMatchIters interval duration tp sl qa fetch →
        priceStop (stopLossTarget qa sl) (takeProfitTarget qa tp) fetch s = false) ∧
      (priceMatchIters interval duration tp sl qa fetch = max 1 (duration / interval) ∨
        priceStop (stopLossTarget qa sl) (takeProfitTarget qa tp) fetch
          (priceMatchIters interval duration tp sl qa fetch - 1) = true)) := by
  constructor
  · intro interval duration tp sl qa fetch h
    unfold priceMatchIters
    rcases h with h | h <;> simp [h]
  · intro interval duration tp sl qa fetch hd hi
    unfold priceMatchIters
    rw [if_neg (by simp; omega)]
    have h1 : 0 < max 1 (duration / interval) :=
      lt_of_lt_of_le one_pos (le_max_left _ _)
    have h2 : max 1 (duration / interval) - 0 ≤ duration / interval + 1 := by
      rw [Nat.sub_zero]
      exact max_le (Nat.le_add_left 1 _) (Nat.le_succ _)
    simpa using priceLoop_spec (duration / interval) (stopLossTarget qa sl)
      (takeProfitTarget qa tp) fetch (duration / interval + 1) 0 h1 h2

/-- Witness for C4 at concrete inputs: the zero-knob bypass, and the characterisation
of a run with quote amount 100, take-profit 50, stop-loss 30 and a fetch that always
returns an in-range output, which exhausts the window of five passes. -/
theorem claim_C4_witness :
    priceMatchIters 0 5 50 30 100 (fun _ => some 100) = 0 ∧
    (1 ≤ priceMatchIters 1 5 50 30 100 (fun _ => some 100) ∧
      priceMatchIters 1 5 50 30 100 (fun _ => some 100) ≤ max 1 (5 / 1) ∧
      (∀ s, s + 1 < priceMatchIters 1 5 50 30 100 (fun _ => some 100) →
        priceStop (stopLossTarget 100 30) (takeProfitTarget 100 50)
          (fun _ => some 100) s = false) ∧
      (priceMatchIters 1 5 50 30 100 (fun _ => some 100) = max 1 (5 / 1) ∨
        priceStop (stopLossTarget 100 30) (takeProfitTarget 100 50) (fun _ => some 100)
          (priceMatchIters 1 5 50 30 100 (fun _ => some 100) - 1) = true)) :=
  ⟨claim_C4.1 0 5 50 30 100 (fun _ => some 100) (Or.inr rfl),
   claim_C4.2 1 5 50 30 100 (fun _ => some 100) (by decide) (by decide)⟩

/-- C10: when both knobs are nonzero but priceCheckDuration < priceCheckInterval, so
Math.floor(duration / interval) is zero, the do/while body still runs exactly once —
one pool-info fetch and one threshold evaluation — because the bound is only checked
after the first pass. -/
theorem claim_C10 (interval duration tp sl qa : Nat) (fetch : Nat → Option Nat)
    (hi : 0 < interval) (hd : 0 < duration) (hlt : duration < interval) :
    priceMatchIters interval duration tp sl qa fetch = 1 := by
  unfold priceMatchIters
  rw [if_neg (by simp; omega)]
  rw [Nat.div_eq_of_lt hlt]
  unfold priceLoop
  by_cases hstop : priceStop (stopLossTarget qa sl) (takeProfitTarget qa tp) fetch 0
  · rw [if_pos hstop]
  · rw [if_neg hstop, if_neg (by omega)]

/-- Witness for C10: interval 2, duration 1 still yields exactly one pass. -/
theorem claim_C10_witness :
    priceMatchIters 2 1 50 30 100 (fun _ => some 100) = 1 :=
  claim_C10 2 1 50 30 100 (fun _ => some 100) (by decide) (by decide) (by decide)

/-! ### Theorems about the buy path (claims C2, C7) -/

/-- C2: a buy invocation with oneTokenAtATime that reaches the skip check and finds
the trade mutex locked or sellExecutionCount positive returns without acquiring the
mutex and without any swap submission, and its cleanup never restarts the listeners —
they stay stopped exactly when this same call stopped them (sellExecutionCount was
positive at the stop check), restart being left to the in-progress sell. -/
theorem claim_C2 (cfg : BuyConfig) (env : BuyEnv)
    (hone : cfg.oneTokenAtATime = true)
    (hsnipe : (cfg.useSnipeList && !env.inSnipeList) = false)
    (havoid : (cfg.useAvoidList && env.inAvoidList) = false)
    (hcheck : env.mutexLockedAtCheck = true ∨ 0 < env.sellCountAtLockCheck) :
    (buy cfg env).mutexAcquired = false ∧
    (buy cfg env).submissions = 0 ∧
    (buy cfg env).listenersRestarted = false ∧
    (buy cfg env).listenersStopped = decide (0 < env.sellCountAtStopCheck) := by
  have hcond : (cfg.oneTokenAtATime &&
      (env.mutexLockedAtCheck || decide (0 < env.sellCountAtLockCheck))) = true := by
    rcases hcheck with h | h <;> simp [hone, h]
  unfold buy
  rw [hsnipe, havoid]
  simp only [Bool.false_eq_true, if_false]
  rw [hcond]
  simp [hone]

/-- Witness for C2: a concrete invocation that stopped the listeners (a sell was in
flight at the stop check) and then hit the skip check leaves them stopped, acquires
nothing and submits nothing. -/
theorem claim_C2_witness :
    (buy ⟨false, false, true, 3⟩ ⟨false, false, 2, false, 1, true, true,
        fun _ => SwapAttempt.result ⟨true⟩⟩).mutexAcquired = false ∧
    (buy ⟨false, false, true, 3⟩ ⟨false, false, 2, false, 1, true, true,
        fun _ => SwapAttempt.result ⟨true⟩⟩).submissions = 0 ∧
    (buy ⟨false, false, true, 3⟩ ⟨false, false, 2, false, 1, true, true,
        fun _ => SwapAttempt.result ⟨true⟩⟩).listenersRestarted = false ∧
    (buy ⟨false, false, true, 3⟩ ⟨false, false, 2, false, 1, true, true,
        fun _ => SwapAttempt.result ⟨true⟩⟩).listenersStopped = decide ((0 : Nat) < 2) :=
  claim_C2 ⟨false, false, true, 3⟩ ⟨false, false, 2, false, 1, true, true,
    fun _ => SwapAttempt.result ⟨true⟩⟩ rfl rfl rfl (Or.inr (by decide))

/-- The retry loop never makes more submissions than its fuel allows. -/
theorem buyRetrySubmissions_le (results : Nat → SwapAttempt) :
    ∀ fuel i, buyRetrySubmissions results i fuel ≤ fuel := by
  intro fuel
  induction fuel with
  | zero => intro i; simp [buyRetrySubmissions]
  | succ fuel ih =>
    intro i
    cases hres : results i with
    | threw =>
      simp only [buyRetrySubmissions, hres]
      have := ih (i + 1)
      omega
    | empty => simp [buyRetrySubmissions, hres]
    | result r =>
      simp only [buyRetrySubmissions, hres]
      cases hc : r.confirmed with
      | true => simp [hc]
      | false =>
        simp only [hc, Bool.false_eq_true, if_false]
        have := ih (i + 1)
        omega

/-- With any fuel left the retry loop makes at least one submission. -/
theorem buyRetrySubmissions_pos (results : Nat → SwapAttempt) :
    ∀ fuel i, 0 < fuel → 0 < buyRetrySubmissions results i fuel := by
  intro fuel
  cases fuel with
  | zero => intro i h; omega
  | succ fuel =>
    intro i h
    cases hres : results i with
    | threw => simp only [buyRetrySubmissions, hres]; omega
    | empty => simp only [buyRetrySubmissions, hres]; omega
    | result r =>
      simp only [buyRetrySubmissions, hres]
      split
      · omega
      · omega

/-- No submission before the last one of a retry run had a stopping outcome: each
earlier attempt either threw (caught and logged, loop continues) or returned a present
unconfirmed result, so the loop stops at the first absent or confirmed result. -/
theorem buyRetrySubmissions_stops_first (results : Nat → SwapAttempt) :
    ∀ fuel i j, j + 1 < buyRetrySubmissions results i fuel →
      stopsRetry (results (i + j)) = false := by
  intro fuel
  induction fuel with
  | zero => intro i j h; simp [buyRetrySubmissions] at h
  | succ fuel ih =>
    intro i j h
    cases hres : results i with
    | threw =>
      simp only [buyRetrySubmissions, hres] at h
      match j with
      | 0 =>
        rw [Nat.add_zero, hres]
        rfl
      | j + 1 =>
        have := ih (i + 1) j (by omega)
        have heq : i + (j + 1) = i + 1 + j := by omega
        rwa [heq]
    | empty =>
      simp only [buyRetrySubmissions, hres] at h
      omega
    | result r =>
      simp only [buyRetrySubmissions, hres] at h
      cases hc : r.confirmed with
      | true =>
        rw [if_pos hc] at h
        omega
      | false =>
        simp only [hc, Bool.false_eq_true, if_false] at h
        match j with
        | 0 =>
          rw [Nat.add_zero, hres]
          simpa [stopsRetry] using hc
        | j + 1 =>
          have := ih (i + 1) j (by omega)
          have heq : i + (j + 1) = i + 1 + j := by omega
          rwa [heq]

/-- A retry run that ends before exhausting its fuel ends on a stopping outcome: its
final submission's result was absent or confirmed. -/
theorem buyRetrySubmissions_last_stops (results : Nat → SwapAttempt) :
    ∀ fuel i, buyRetrySubmissions results i fuel < fuel →
      0 < buyRetrySubmissions results i fuel →
      stopsRetry (results (i + buyRetrySubmissions results i fuel - 1)) = true := by
  intro fuel
  induction fuel with
  | zero => intro i h1 h2; omega
  | succ fuel ih =>
    intro i h1 h2
    cases hres : results i with
    | threw =>
      have hsub : buyRetrySubmissions results i (fuel + 1) =
          1 + buyRetrySubmissions results (i + 1) fuel := by
        simp only [buyRetrySubmissions, hres]
      rw [hsub] at h1 h2 ⊢
      have hpos : 0 < buyRetrySubmissions results (i + 1) fuel :=
        buyRetrySubmissions_pos results fuel (i + 1) (by omega)
      have hrec := ih (i + 1) (by omega) hpos
      have heq : i + (1 + buyRetrySubmissions results (i + 1) fuel) - 1 =
          i + 1 + buyRetrySubmissions results (i + 1) fuel - 1 := by omega
      rwa [heq]
    | empty =>
      have hsub : buyRetrySubmissions results i (fuel + 1) = 1 := by
        simp only [buyRetrySubmissions, hres]
      rw [hsub, show i + 1 - 1 = i by omega, hres]
      rfl
    | result r =>
      cases hc : r.confirmed with
      | true =>
        have hsub : buyRetrySubmissions results i (fuel + 1) = 1 := by
          simp only [buyRetrySubmissions, hres]
          rw [if_pos hc]
        rw [hsub, show i + 1 - 1 = i by omega, hres]
        simpa [stopsRetry] using hc
      | false =>
        have hsub : buyRetrySubmissions results i (fuel + 1) =
            1 + buyRetrySubmissions results (i + 1) fuel := by
          simp only [buyRetrySubmissions, hres]
          rw [if_neg (by simp [hc])]
        rw [hsub] at h1 h2 ⊢
        have hpos : 0 < buyRetrySubmissions results (i + 1) fuel :=
          buyRetrySubmissions_pos results fuel (i + 1) (by omega)
        have hrec := ih (i + 1) (by omega) hpos
        have heq : i + (1 + buyRetrySubmissions results (i + 1) fuel) - 1 =
            i + 1 + buyRetrySubmissions results (i + 1) fuel - 1 := by omega
        rwa [heq]

/-- The submission count of any buy invocation is zero or comes from the retry loop. -/
theorem buy_submissions_cases (cfg : BuyConfig) (env : BuyEnv) :
    (buy cfg env).submissions = 0 ∨
    (buy cfg env).submissions = buyRetrySubmissions env.swapResults 0 cfg.maxBuyRetries := by
  unfold buy
  split
  · left; rfl
  · split
    · left; rfl
    · split
      · left; rfl
      · split
        · split
          · left; rfl
          · right; rfl
        · left; rfl

/-- C7: every buy invocation makes at most maxBuyRetries swap submissions; with
maxBuyRetries zero the swap is never attempted; the loop stops at the first submission
whose result is absent or confirmed — no earlier attempt had such an outcome (each
earlier one threw, its error caught and logged, or returned a present unconfirmed
result), and a run that ends before exhausting maxBuyRetries ends on one; and in the
concrete scenario of maxBuyRetries three with the first two attempts returning
unconfirmed results and the third a confirmed one, exactly three submissions occur. -/
theorem claim_C7 :
    (∀ cfg env, (buy cfg env).submissions ≤ cfg.maxBuyRetries) ∧
    (∀ cfg env, cfg.maxBuyRetries = 0 → (buy cfg env).submissions = 0) ∧
    (∀ cfg env j, j + 1 < (buy cfg env).submissions →
      stopsRetry (env.swapResults j) = false) ∧
    (∀ cfg env, (buy cfg env).submissions < cfg.maxBuyRetries →
      0 < (buy cfg env).submissions →
      stopsRetry (env.swapResults ((buy cfg env).submissions - 1)) = true) ∧
    (buy ⟨false, false, false, 3⟩
      ⟨false, false, 0, false, 0, true, true,
        fun i => SwapAttempt.result ⟨decide (i = 2)⟩⟩).submissions = 3 := by
  refine ⟨?_, ?_, ?_, ?_, by decide⟩
  · intro cfg env
    rcases buy_submissions_cases cfg env with h | h
    · omega
    · rw [h]; exact buyRetrySubmissions_le env.swapResults cfg.maxBuyRetries 0
  · intro cfg env h0
    rcases buy_submissions_cases cfg env with h | h
    · exact h
    · rw [h, h0]; rfl
  · intro cfg env j hj
    rcases buy_submissions_cases cfg env with h | h
    · omega
    · rw [h] at hj
      simpa using buyRetrySubmissions_stops_first env.swapResults cfg.maxBuyRetries 0 j hj
  · intro cfg env h1 h2
    rcases buy_submissions_cases cfg env with h | h
    · omega
    · rw [h] at h1 h2 ⊢
      simpa using buyRetrySubmissions_last_stops env.swapResults cfg.maxBuyRetries 0 h1 h2

/-- Witness for C7 at concrete inputs: the retry bound on the three-attempt scenario,
the zero-retries bound, a run whose thrown first attempt was retried past (so the
pre-final attempt had no stopping outcome), and a run ending early on a confirmed
first attempt. -/
theorem claim_C7_witness :
    (buy ⟨false, false, false, 3⟩
      ⟨false, false, 0, false, 0, true, true,
        fun i => SwapAttempt.result ⟨decide (i = 2)⟩⟩).submissions ≤ 3 ∧
    (buy ⟨false, false, false, 0⟩
      ⟨false, false, 0, false, 0, true, true,
        fun _ => SwapAttempt.result ⟨true⟩⟩).submissions = 0 ∧
    stopsRetry ((⟨false, false, 0, false, 0, true, true,
      fun i => if i = 0 then SwapAttempt.threw
        else SwapAttempt.result ⟨true⟩⟩ : BuyEnv).swapResults 0) = false ∧
    stopsRetry ((⟨false, false, 0, false, 0, true, true,
      fun _ => SwapAttempt.result ⟨true⟩⟩ : BuyEnv).swapResults
      ((buy ⟨false, false, false, 3⟩ ⟨false, false, 0, false, 0, true, true,
        fun _ => SwapAttempt.result ⟨true⟩⟩).submissions - 1)) = true :=
  ⟨claim_C7.1 ⟨false, false, false, 3⟩
     ⟨false, false, 0, false, 0, true, true,
       fun i => SwapAttempt.result ⟨decide (i = 2)⟩⟩,
   claim_C7.2.1 ⟨false, false, false, 0⟩
     ⟨false, false, 0, false, 0, true, true, fun _ => SwapAttempt.result ⟨true⟩⟩ rfl,
   claim_C7.2.2.1 ⟨false, false, false, 3⟩
     ⟨false, false, 0, false, 0, true, true,
       fun i => if i = 0 then SwapAttempt.threw else SwapAttempt.result ⟨true⟩⟩ 0
     (by decide),
   claim_C7.2.2.2.1 ⟨false, false, false, 3⟩
     ⟨false, false, 0, false, 0, true, true, fun _ => SwapAttempt.result ⟨true⟩⟩
     (by decide) (by decide)⟩

/-! ### Theorems about the endpoint pool (claim C9) -/

/-- Whatever the candidate loop of getRandomConnection returns differs from the
last-used index and was produced by the random source. -/
theorem pickDifferentIndex_spec (last : Option Nat) (rand : Nat → Nat) :
    ∀ fuel k i, pickDifferentIndex last rand k fuel = some i →
      some i ≠ last ∧ ∃ m, rand m = i := by
  intro fuel
  induction fuel with
  | zero => intro k i h; simp [pickDifferentIndex] at h
  | succ fuel ih =>
    intro k i h
    unfold pickDifferentIndex at h
    by_cases heq : some (rand k) = last
    · rw [if_pos heq] at h
      exact ih (k + 1) i h
    · rw [if_neg heq] at h
      obtain rfl : rand k = i := Option.some.inj h
      exact ⟨heq, k, rfl⟩

/-- The candidate loop terminates as soon as some draw within the fuel differs from
the last-used index. -/
theorem pickDifferentIndex_terminates (last : Option Nat) (rand : Nat → Nat) :
    ∀ fuel k, (∃ m, k ≤ m ∧ m < k + fuel ∧ some (rand m) ≠ last) →
      ∃ i, pickDifferentIndex last rand k fuel = some i := by
  intro fuel
  induction fuel with
  | zero => intro k h; obtain ⟨m, h1, h2, -⟩ := h; omega
  | succ fuel ih =>
    intro k h
    unfold pickDifferentIndex
    by_cases heq : some (rand k) = last
    · rw [if_pos heq]
      obtain ⟨m, h1, h2, h3⟩ := h
      have hm : m ≠ k := fun hc => h3 (hc ▸ heq)
      exact ih (k + 1) ⟨m, by omega, by omega, h3⟩
    · rw [if_neg heq]
      exact ⟨rand k, rfl⟩

/-- C9: a non-default refresh of a single-endpoint pool always reuses the sole index 0
and records it; on a pool of at least two endpoints, whatever values the random source
yields, any picked index lies in the range of the source's draws (hence in the range
0 ..< N when every draw is), differs from the last-used index, and becomes the new
last-used index; and as soon as any draw within the fuel differs from the last-used
index a pick is actually made. -/
theorem claim_C9 :
    (∀ last rand fuel, refreshConnection false 1 last rand fuel =
      RefreshOutcome.picked 0 (some 0)) ∧
    (∀ n last rand fuel i l, 2 ≤ n → (∀ k, rand k < n) →
      refreshConnection false n last rand fuel = RefreshOutcome.picked i l →
      i < n ∧ some i ≠ last ∧ l = some i) ∧
    (∀ n last rand fuel, 2 ≤ n → (∃ m, m < fuel ∧ some (rand m) ≠ last) →
      ∃ i, refreshConnection false n last rand fuel = RefreshOutcome.picked i (some i) ∧
        some i ≠ last) := by
  refine ⟨?_, ?_, ?_⟩
  · intro last rand fuel
    simp [refreshConnection, getRandomConnection]
  · intro n last rand fuel i l hn hrand h
    unfold refreshConnection getRandomConnection at h
    rw [if_neg (by simp)] at h
    rw [if_neg (by omega)] at h
    cases hpick : pickDifferentIndex last rand 0 fuel with
    | none => rw [hpick] at h; exact absurd h (by simp)
    | some i' =>
      rw [hpick] at h
      obtain ⟨hne, m, hm⟩ := pickDifferentIndex_spec last rand fuel 0 i' hpick
      have hil : i' = i ∧ (some i' : Option Nat) = l := by
        constructor
        · exact (RefreshOutcome.picked.injEq _ _ _ _ ▸ h).1
        · exact (RefreshOutcome.picked.injEq _ _ _ _ ▸ h).2
      obtain ⟨rfl, hl⟩ := hil
      exact ⟨hm ▸ hrand m, hne, hl.symm⟩
  · intro n last rand fuel hn hex
    unfold refreshConnection getRandomConnection
    rw [if_neg (by simp)]
    rw [if_neg (by omega)]
    obtain ⟨i, hi⟩ := pickDifferentIndex_terminates last rand fuel 0 (by
      obtain ⟨m, h1, h2⟩ := hex
      exact ⟨m, Nat.zero_le m, by omega, h2⟩)
    rw [hi]
    exact ⟨i, rfl, (pickDifferentIndex_spec last rand fuel 0 i hi).1⟩

/-- Witness for C9 at concrete inputs: the single-endpoint reuse, the pick on a
three-endpoint pool with last index 1 landing on a different in-range index, and the
termination of the candidate loop. -/
theorem claim_C9_witness :
    refreshConnection false 1 (some 0) (fun k => k % 3) 4 =
      RefreshOutcome.picked 0 (some 0) ∧
    (0 < 3 ∧ (some 0 : Option Nat) ≠ some 1 ∧ (some 0 : Option Nat) = some 0) ∧
    (∃ i, refreshConnection false 3 (some 1) (fun k => k % 3) 4 =
      RefreshOutcome.picked i (some i) ∧ some i ≠ some 1) :=
  ⟨claim_C9.1 (some 0) (fun k => k % 3) 4,
   claim_C9.2.1 3 (some 1) (fun k => k % 3) 4 0 (some 0) (by decide)
     (fun k => Nat.mod_lt k (by decide)) (by decide),
   claim_C9.2.2 3 (some 1) (fun k => k % 3) 4 (by decide) ⟨0, by decide, by decide⟩⟩

/-! ### Theorems about the deny-list cache (claim C8) -/

/-- Splitting always yields at least one segment. -/
theorem splitOnChar_ne_nil (sep : Char) (l : List Char) : splitOnChar sep l ≠ [] := by
  induction l with
  | nil => simp [splitOnChar]
  | cons c rest ih =>
    unfold splitOnChar
    by_cases hc : c = sep
    · rw [if_pos hc]; simp
    · rw [if_neg hc]
      cases hr : splitOnChar sep rest with
      | nil => simp
      | cons h t => simp

/-- A separator-free list splits into itself alone. -/
theorem splitOnChar_of_not_mem (sep : Char) (l : List Char) (h : sep ∉ l) :
    splitOnChar sep l = [l] := by
  induction l with
  | nil => rfl
  | cons c rest ih =>
    have hc : ¬ c = sep := fun hcc => h (hcc ▸ List.mem_cons_self c rest)
    have hrest : sep ∉ rest := fun hm => h (List.mem_cons_of_mem c hm)
    unfold splitOnChar
    rw [if_neg hc, ih hrest]

/-- Splitting a separator-free prefix followed by the separator peels off the prefix. -/
theorem splitOnChar_append_sep (sep : Char) (l r : List Char) (h : sep ∉ l) :
    splitOnChar sep (l ++ sep :: r) = l :: splitOnChar sep r := by
  induction l with
  | nil => simp [splitOnChar]
  | cons c rest ih =>
    have hc : ¬ c = sep := fun hcc => h (hcc ▸ List.mem_cons_self c rest)
    have hrest : sep ∉ rest := fun hm => h (List.mem_cons_of_mem c hm)
    rw [List.cons_append]
    simp only [splitOnChar]
    rw [if_neg hc, ih hrest]

/-- Joining the split segments restores the original list. -/
theorem joinWithChar_splitOnChar (sep : Char) (l : List Char) :
    joinWithChar sep (splitOnChar sep l) = l := by
  induction l with
  | nil => rfl
  | cons c rest ih =>
    unfold splitOnChar
    by_cases hc : c = sep
    · rw [if_pos hc]
      cases hr : splitOnChar sep rest with
      | nil => exact absurd hr (splitOnChar_ne_nil sep rest)
      | cons h t =>
        rw [hr] at ih
        subst hc
        simpa [joinWithChar] using ih
    · rw [if_neg hc]
      cases hr : splitOnChar sep rest with
      | nil => exact absurd hr (splitOnChar_ne_nil sep rest)
      | cons h t =>
        rw [hr] at ih
        cases t with
        | nil => simpa [joinWithChar] using ih
        | cons x xs => simpa [joinWithChar] using ih

/-- A list whose characters are all non-space is untouched by dropWhile isJsSpace. -/
theorem dropWhile_of_no_space (l : List Char) (h : ∀ c ∈ l, isJsSpace c = false) :
    l.dropWhile isJsSpace = l := by
  cases l with
  | nil => rfl
  | cons c rest => simp [List.dropWhile, h c (List.mem_cons_self c rest)]

/-- A list of non-space characters is trim-invariant. -/
theorem trim_of_no_space (l : List Char) (h : ∀ c ∈ l, isJsSpace c = false) :
    trimChars l = l := by
  unfold trimChars
  rw [dropWhile_of_no_space l h]
  rw [dropWhile_of_no_space l.reverse (fun c hc => h c (List.mem_reverse.mp hc))]
  exact List.reverse_reverse l

/-- A list with non-space first and last characters is trim-invariant. -/
theorem trim_eq_self_of_ends (l : List Char)
    (h1 : ∀ c, l.head? = some c → isJsSpace c = false)
    (h2 : ∀ c, l.getLast? = some c → isJsSpace c = false) : trimChars l = l := by
  cases l with
  | nil => rfl
  | cons a tl =>
    unfold trimChars
    have ha : isJsSpace a = false := h1 a rfl
    rw [show (a :: tl).dropWhile isJsSpace = a :: tl by simp [List.dropWhile, ha]]
    cases hr : (a :: tl).reverse with
    | nil => exact absurd hr (by simp)
    | cons b rb =>
      have hb : isJsSpace b = false := by
        apply h2
        rw [← List.head?_reverse, hr]
        rfl
      rw [show (b :: rb).dropWhile isJsSpace = b :: rb by simp [List.dropWhile, hb]]
      rw [← hr, List.reverse_reverse]

/-- The escape of a character never contains a literal newline. -/
theorem newline_not_mem_jsonEscapeChar (c : Char) : '\n' ∉ jsonEscapeChar c := by
  unfold jsonEscapeChar
  split_ifs with h1 h2 h3 h4 h5
  · decide
  · decide
  · decide
  · decide
  · decide
  · simp only [List.mem_singleton]
    exact fun hc => h3 hc.symm

/-- A JSON-encoded note never contains a literal newline. -/
theorem newline_not_mem_jsonEncodeChars (n : List Char) : '\n' ∉ jsonEncodeChars n := by
  unfold jsonEncodeChars
  intro hmem
  rcases List.mem_cons.mp hmem with h | h
  · exact absurd h (by decide)
  rcases List.mem_append.mp h with h | h
  · rcases List.mem_flatten.mp h with ⟨chunk, hchunk, hc⟩
    rcases List.mem_map.mp hchunk with ⟨c, -, rfl⟩
    exact newline_not_mem_jsonEscapeChar c hc
  · exact absurd (List.mem_singleton.mp h) (by decide)

/-- A JSON-encoded note is trim-invariant (it is wrapped in quotes). -/
theorem trim_jsonEncodeChars (n : List Char) :
    trimChars (jsonEncodeChars n) = jsonEncodeChars n := by
  apply trim_eq_self_of_ends
  · intro c hc
    rw [show (jsonEncodeChars n).head? = some '\"' from rfl] at hc
    cases hc; decide
  · intro c hc
    unfold jsonEncodeChars at hc
    rw [show ('\"' :: ((n.map jsonEscapeChar).flatten ++ ['\"'])) =
        ('\"' :: (n.map jsonEscapeChar).flatten) ++ ['\"'] by simp] at hc
    rw [List.getLast?_concat] at hc
    cases hc; decide

/-- Decoding after a backslash consumes one escape. -/
theorem jsonDecodeBody_escape (e d : Char) (rest : List Char)
    (h : jsonUnescapeChar e = some d) :
    jsonDecodeBody ('\\' :: e :: rest) = (jsonDecodeBody rest).map (fun t => d :: t) := by
  simp only [jsonDecodeBody, if_pos rfl, h]
  cases jsonDecodeBody rest
  · rfl
  · rfl

/-- Decoding an unescaped plain character keeps it. -/
theorem jsonDecodeBody_plain (c : Char) (rest : List Char) (h1 : ¬ c = '\\')
    (h2 : ¬ c = '\"') :
    jsonDecodeBody (c :: rest) = (jsonDecodeBody rest).map (fun t => c :: t) := by
  cases rest with
  | nil => simp only [jsonDecodeBody, if_neg h2]; rfl
  | cons e rest2 =>
    simp only [jsonDecodeBody, if_neg h1, if_neg h2]
    cases jsonDecodeBody (e :: rest2)
    · rfl
    · rfl

/-- Decoding the encoded body (with its closing quote) recovers the original note. -/
theorem jsonDecodeBody_encode (n : List Char) :
    jsonDecodeBody ((n.map jsonEscapeChar).flatten ++ ['\"']) = some n := by
  induction n with
  | nil => decide
  | cons c n ih =>
    have hl : ((c :: n).map jsonEscapeChar).flatten ++ ['\"'] =
        jsonEscapeChar c ++ ((n.map jsonEscapeChar).flatten ++ ['\"']) := by
      simp
    rw [hl]
    by_cases h1 : c = '\"'
    · subst h1
      rw [show jsonEscapeChar '\"' = ['\\', '\"'] from rfl, List.cons_append,
        List.cons_append, List.nil_append,
        jsonDecodeBody_escape '\"' '\"' _ (by decide), ih]
      rfl
    · by_cases h2 : c = '\\'
      · subst h2
        rw [show jsonEscapeChar '\\' = ['\\', '\\'] from rfl, List.cons_append,
          List.cons_append, List.nil_append,
          jsonDecodeBody_escape '\\' '\\' _ (by decide), ih]
        rfl
      · by_cases h3 : c = '\n'
        · subst h3
          rw [show jsonEscapeChar '\n' = ['\\', 'n'] from rfl, List.cons_append,
            List.cons_append, List.nil_append,
            jsonDecodeBody_escape 'n' '\n' _ (by decide), ih]
          rfl
        · by_cases h4 : c = '\r'
          · subst h4
            rw [show jsonEscapeChar '\r' = ['\\', 'r'] from rfl, List.cons_append,
              List.cons_append, List.nil_append,
              jsonDecodeBody_escape 'r' '\r' _ (by decide), ih]
            rfl
          · by_cases h5 : c = '\t'
            · subst h5
              rw [show jsonEscapeChar '\t' = ['\\', 't'] from rfl, List.cons_append,
                List.cons_append, List.nil_append,
                jsonDecodeBody_escape 't' '\t' _ (by decide), ih]
              rfl
            · rw [show jsonEscapeChar c = [c] by
                simp [jsonEscapeChar, h1, h2, h3, h4, h5]]
              rw [List.cons_append, List.nil_append,
                jsonDecodeBody_plain c _ h2 h1, ih]
              rfl

/-- JSON round trip: parsing a stringified note gives the note back. -/
theorem jsonDecode_encode (n : List Char) :
    jsonDecodeChars (jsonEncodeChars n) = some n :=
  jsonDecodeBody_encode n

/-- The line a good address yields is a good stored line. -/
theorem goodLine_addLine (a : List Char) (note : Option (List Char)) (h : goodAddress a) :
    goodLine (addLine a note) := by
  obtain ⟨hne, hcomma, hns⟩ := h
  have hnla : '\n' ∉ a := fun hmem => absurd (hns '\n' hmem) (by decide)
  cases note with
  | none => exact ⟨hne, trim_of_no_space a hns, hnla⟩
  | some n =>
    refine ⟨?_, ?_, ?_⟩
    · show a ++ ',' :: jsonEncodeChars n ≠ []
      simp
    · apply trim_eq_self_of_ends
      · intro c hc
        cases a with
        | nil => exact absurd rfl hne
        | cons a0 a' =>
          have : (addLine (a0 :: a') (some n)).head? = some a0 := rfl
          rw [this] at hc
          cases hc
          exact hns c (List.mem_cons_self c a')
      · intro c hc
        have hline : addLine a (some n) =
            (a ++ (',' :: '\"' :: (n.map jsonEscapeChar).flatten)) ++ ['\"'] := by
          show a ++ ',' :: jsonEncodeChars n = _
          simp [jsonEncodeChars]
        rw [hline, List.getLast?_concat] at hc
        cases hc
        decide
    · show '\n' ∉ a ++ ',' :: jsonEncodeChars n
      intro hmem
      rcases List.mem_append.mp hmem with hmem | hmem
      · exact hnla hmem
      rcases List.mem_cons.mp hmem with hmem | hmem
      · exact absurd hmem (by decide)
      · exact newline_not_mem_jsonEncodeChars n hmem

/-- parseLine on a line whose split has at least two segments. -/
theorem parseLine_eq (line : List Char) (address s : List Char) (t : List (List Char))
    (h : splitOnChar ',' line = address :: s :: t) :
    parseLine line = ⟨trimChars address, some (
      match jsonDecodeChars (trimChars (joinWithChar ',' (s :: t))) with
      | some n => n
      | none => trimChars (joinWithChar ',' (s :: t)))⟩ := by
  unfold parseLine
  rw [h]

/-- Reloading the line written for a good address reconstructs exactly the entry that
add pushed, note included. -/
theorem parseLine_addLine (a : List Char) (note : Option (List Char)) (h : goodAddress a) :
    parseLine (addLine a note) = ⟨a, note⟩ := by
  obtain ⟨hne, hcomma, hns⟩ := h
  cases note with
  | none =>
    show parseLine a = _
    unfold parseLine
    rw [splitOnChar_of_not_mem ',' a hcomma]
  | some n =>
    cases hS : splitOnChar ',' (jsonEncodeChars n) with
    | nil => exact absurd hS (splitOnChar_ne_nil _ _)
    | cons s t =>
      have hsplit : splitOnChar ',' (addLine a (some n)) = a :: s :: t := by
        show splitOnChar ',' (a ++ ',' :: jsonEncodeChars n) = a :: s :: t
        rw [splitOnChar_append_sep ',' a _ hcomma, hS]
      have hjoin : joinWithChar ',' (s :: t) = jsonEncodeChars n := by
        rw [← hS]
        exact joinWithChar_splitOnChar ',' (jsonEncodeChars n)
      rw [parseLine_eq (addLine a (some n)) a s t hsplit, hjoin, trim_jsonEncodeChars,
        jsonDecode_encode, trim_of_no_space a hns]

/-- Reloading a file of newline-terminated good lines parses exactly those lines. -/
theorem loadAvoidList_flatten (lines : List (List Char)) (h : ∀ l ∈ lines, goodLine l) :
    loadAvoidList ((lines.map (fun l => l ++ ['\n'])).flatten) = lines.map parseLine := by
  induction lines with
  | nil => rfl
  | cons l ls ih =>
    obtain ⟨hne, htrim, hnl⟩ := h l (List.mem_cons_self l ls)
    have hrest : ∀ x ∈ ls, goodLine x := fun x hx => h x (List.mem_cons_of_mem l hx)
    have hfile : (((l :: ls).map (fun x => x ++ ['\n'])).flatten : List Char) =
        l ++ '\n' :: (ls.map (fun x => x ++ ['\n'])).flatten := by
      simp
    rw [hfile]
    simp only [loadAvoidList] at ih ⊢
    rw [splitOnChar_append_sep '\n' l _ hnl, List.map_cons, htrim]
    have hkeep : (!l.isEmpty) = true := by
      cases l with
      | nil => exact absurd rfl hne
      | cons c cs => rfl
    have hfilter : List.filter (fun x => !x.isEmpty)
        (l :: List.map trimChars (splitOnChar '\n'
          (List.map (fun x => x ++ ['\n']) ls).flatten)) =
        l :: List.filter (fun x => !x.isEmpty) (List.map trimChars (splitOnChar '\n'
          (List.map (fun x => x ++ ['\n']) ls).flatten)) := by
      simp [List.filter_cons, hkeep]
    rw [hfilter, List.map_cons, ih hrest, List.map_cons]

/-- Adding an entry makes its address a member. -/
theorem isInList_append_self (l : List AvoidListEntry) (a : List Char)
    (note : Option (List Char)) : isInList (l ++ [⟨a, note⟩]) a = true := by
  simp [isInList]

/-- Counterexample to C8.  The claim's round trip fails for an address containing a
comma: after adding the address "a,b" with no note to an empty deny list, the address
is in the in-memory list, but reloading the file parses the line as address "a" with
note "b", so the reloaded list differs from the serialized one. -/
theorem claim_C8_counterexample :
    isInList (add ⟨[], []⟩ ("a,b".toList) none).avoidList ("a,b".toList) = true ∧
    loadAvoidList (add ⟨[], []⟩ ("a,b".toList) none).file ≠
      (add ⟨[], []⟩ ("a,b".toList) none).avoidList := by
  decide

/-- C8 (amended): for every address not already in the deny list, add appends the line
(the address, or the address comma the JSON-encoded note) plus a newline to the file
and makes isInList true; a duplicate add leaves the state — file and in-memory list —
unchanged; and reloading the file reconstructs a list equal to the serialized one,
preserving notes written by add, provided every added address is nonempty and free of
commas and whitespace (as base58 addresses are): such adds preserve well-formedness of
the state, and every well-formed state reloads to exactly its in-memory list. -/
theorem claim_C8_amended :
    (∀ st a note, isInList st.avoidList a = false →
      (add st a note).file = st.file ++ addLine a note ++ ['\n'] ∧
      isInList (add st a note).avoidList a = true) ∧
    (∀ st a note, isInList st.avoidList a = true → add st a note = st) ∧
    (∀ a note, goodAddress a → parseLine (addLine a note) = ⟨a, note⟩) ∧
    wfState ⟨[], []⟩ ∧
    (∀ st a note, wfState st → goodAddress a → wfState (add st a note)) ∧
    (∀ st, wfState st → loadAvoidList st.file = st.avoidList) := by
  have hdup : ∀ st a note, isInList st.avoidList a = true → add st a note = st := by
    intro st a note h
    simp [add, h]
  refine ⟨?_, hdup, fun a note => parseLine_addLine a note, ⟨[], rfl, rfl, by simp⟩,
    ?_, ?_⟩
  · intro st a note h
    constructor
    · simp [add, h]
    · have : (add st a note).avoidList = st.avoidList ++ [⟨a, note⟩] := by
        simp [add, h]
      rw [this]
      exact isInList_append_self st.avoidList a note
  · intro st a note hwf hga
    obtain ⟨lines, hfile, hlist, hgood⟩ := hwf
    by_cases hin : isInList st.avoidList a = true
    · rw [hdup st a note hin]
      exact ⟨lines, hfile, hlist, hgood⟩
    · have hin' : isInList st.avoidList a = false := by
        simpa using hin
      refine ⟨lines ++ [addLine a note], ?_, ?_, ?_⟩
      · simp [add, hin', hfile]
      · rw [show (add st a note).avoidList = st.avoidList ++ [⟨a, note⟩] by
          simp [add, hin']]
        rw [hlist]
        simp [parseLine_addLine a note hga]
      · intro l hl
        rcases List.mem_append.mp hl with h | h
        · exact hgood l h
        · rw [List.mem_singleton.mp h]
          exact goodLine_addLine a note hga
  · intro st hwf
    obtain ⟨lines, hfile, hlist, hgood⟩ := hwf
    rw [hfile, hlist]
    exact loadAvoidList_flatten lines hgood

/-- Witness for the amended C8 at concrete inputs: adding address abc with note hi to
the empty state appends its line, makes membership true, keeps the state well formed,
and the file reloads to exactly the in-memory list with the note preserved. -/
theorem claim_C8_witness :
    (add ⟨[], []⟩ ("abc".toList) (some ("hi".toList))).file =
      [] ++ addLine ("abc".toList) (some ("hi".toList)) ++ ['\n'] ∧
    isInList (add ⟨[], []⟩ ("abc".toList) (some ("hi".toList))).avoidList
      ("abc".toList) = true ∧
    parseLine (addLine ("abc".toList) (some ("hi".toList))) =
      ⟨"abc".toList, some ("hi".toList)⟩ ∧
    wfState (add ⟨[], []⟩ ("abc".toList) (some ("hi".toList))) ∧
    loadAvoidList (add ⟨[], []⟩ ("abc".toList) (some ("hi".toList))).file =
      (add ⟨[], []⟩ ("abc".toList) (some ("hi".toList))).avoidList := by
  have hga : goodAddress ("abc".toList) := by
    unfold goodAddress
    exact ⟨by decide, by decide, by decide⟩
  have hwfadd : wfState (add ⟨[], []⟩ ("abc".toList) (some ("hi".toList))) :=
    claim_C8_amended.2.2.2.2.1 ⟨[], []⟩ ("abc".toList) (some ("hi".toList))
      claim_C8_amended.2.2.2.1 hga
  exact ⟨(claim_C8_amended.1 ⟨[], []⟩ ("abc".toList) (some ("hi".toList)) (by decide)).1,
    (claim_C8_amended.1 ⟨[], []⟩ ("abc".toList) (some ("hi".toList)) (by decide)).2,
    claim_C8_amended.2.2.1 ("abc".toList) (some ("hi".toList)) hga,
    hwfadd,
    claim_C8_amended.2.2.2.2.2 (add ⟨[], []⟩ ("abc".toList) (some ("hi".toList))) hwfadd⟩

end TradingBot
